import Mathlib

/-!
Verification of the picky-rs SSH certificate codec against its specification.

This file gives a shallow embedding of the Rust code in
`picky/src/ssh/mod.rs`, `picky/src/ssh/certificate.rs` and
`picky-asn1-der/src/application_tag.rs`, and proves or refutes the
specification's claims about it.

Modelling conventions:
 * A Rust byte buffer (`Vec<u8>`, `&[u8]`) is a `List Nat`; the invariant
   that every element is below 256 is carried explicitly where it matters.
 * A Rust `Read` stream is the list of bytes not yet consumed; a parser is a
   function `List Nat -> PResult A` returning the parsed value and the rest.
 * A Rust `String` is modelled by its UTF-8 byte list.
 * Machine integers are `Nat` with explicit `% 2^w` where the code truncates
   (`as u32`), and explicit `< 2^w` hypotheses where the Rust type system
   guarantees the bound (`u64` values).
 * `io::Error` results are `PResult.error CertError.io`; an out-of-bounds
   index (a Rust panic) is `PResult.crash`, distinguished from every error.
 * The external RSA key validation `RsaPublicKey::new` is a parameter
   `rsaOk : Nat -> Nat -> Bool` of the decoder (it is an external collaborator
   of the codec; the spec leaves "well-formed RSA key" abstract).
-/

set_option maxRecDepth 100000

namespace PickySsh

/-- Byte strings: each element is intended to lie below 256. -/
abbrev Bytes := List Nat

/-- Errors of the certificate codec, mirroring `SshCertificateError` in
`picky/src/ssh/certificate.rs` (payloads that the claims never inspect are
dropped; `io` covers `CertificateProcessingError(std::io::Error)`). -/
inductive CertError where
  | io
  | unsupportedCertificateType (name : Bytes)
  | unsupportedCriticalOptionType (name : Bytes)
  | unsupportedExtensionType (name : Bytes)
  | fromUtf8
  | base64Decode
  | invalidCertificateType (n : Nat)
  | invalidCertificateKeyType (name : Bytes)
  | invalidPublicKey
  | rsaError
  deriving DecidableEq, Repr

/-- Result of running a parser: the value and the unread rest of the stream,
a typed error, or `crash` for a Rust panic (out-of-bounds index). -/
inductive PResult (α : Type) where
  | ok (val : α) (rest : Bytes)
  | error (e : CertError)
  | crash
  deriving DecidableEq, Repr

/-- A parser over a byte stream. -/
abbrev Parser (α : Type) := Bytes → PResult α

/-- Sequencing of parsers: errors and crashes propagate (the `?` operator). -/
def pbind (p : Parser α) (f : α → Parser β) : Parser β := fun bs =>
  match p bs with
  | .ok a r => f a r
  | .error e => .error e
  | .crash => .crash

/-- Big-endian read of 4 bytes (`read_u32::<BigEndian>`); short input is an
`Io` error. -/
def readU32 : Parser Nat := fun bs =>
  match bs with
  | a :: b :: c :: d :: r => .ok (((a * 256 + b) * 256 + c) * 256 + d) r
  | _ => .error .io

/-- Big-endian read of 8 bytes (`read_u64::<BigEndian>`). -/
def readU64 : Parser Nat := fun bs =>
  match bs with
  | b0 :: b1 :: b2 :: b3 :: b4 :: b5 :: b6 :: b7 :: r =>
      .ok (((((((b0 * 256 + b1) * 256 + b2) * 256 + b3) * 256 + b4) * 256
        + b5) * 256 + b6) * 256 + b7) r
  | _ => .error .io

/-- Big-endian write of a `u32` (`write_u32::<BigEndian>(x as u32)`): the
value is truncated to 32 bits as by `as u32`. -/
def writeU32 (x : Nat) : Bytes :=
  [x / 2 ^ 24 % 256, x / 2 ^ 16 % 256, x / 2 ^ 8 % 256, x % 256]

/-- Big-endian write of a `u64`. -/
def writeU64 (x : Nat) : Bytes :=
  [x / 2 ^ 56 % 256, x / 2 ^ 48 % 256, x / 2 ^ 40 % 256, x / 2 ^ 32 % 256,
   x / 2 ^ 24 % 256, x / 2 ^ 16 % 256, x / 2 ^ 8 % 256, x % 256]

/-- Decoder of `ByteArray` (ssh/mod.rs, `impl SshParser for ByteArray`):
a `u32` length followed by exactly that many bytes; short input is `Io`. -/
def parseByteArray : Parser Bytes := fun bs =>
  match readU32 bs with
  | .ok n r => if n ≤ r.length then .ok (r.take n) (r.drop n) else .error .io
  | .error e => .error e
  | .crash => .crash

/-- Encoder of `ByteArray`: `u32` length prefix then the payload. -/
def encByteArray (payload : Bytes) : Bytes :=
  writeU32 payload.length ++ payload

/-- Decoder of `Mpint` (ssh/mod.rs, `impl SshParser for Mpint`): reads a
length-prefixed buffer, then evaluates `buffer[0]` — which panics
(`PResult.crash`) when the buffer is empty — and strips one leading zero. -/
def parseMpint : Parser Bytes := fun bs =>
  match parseByteArray bs with
  | .ok buf r =>
      match buf with
      | [] => .crash
      | b0 :: rest => if b0 = 0 then .ok rest r else .ok (b0 :: rest) r
  | .error e => .error e
  | .crash => .crash

/-- Encoder of `Mpint` (ssh/mod.rs): when the payload is nonempty and its
first byte has the high bit set, a zero byte is prepended and the length
grows by one; the result is exactly the `ByteArray` framing of the possibly
padded payload. -/
def encMpint (payload : Bytes) : Bytes :=
  if 128 ≤ payload.headD 0 then encByteArray (0 :: payload)
  else encByteArray payload

/-- Value produced by a whole-stream `Mpint` decode, ignoring the rest of the
stream (`none` for an error or a panic). -/
def mpintDecodeValue (bs : Bytes) : Option Bytes :=
  match parseMpint bs with
  | .ok v _ => some v
  | _ => none


/-- Helper for `toBytesBE`; the first argument is fuel, always called with
fuel at least the value. -/
def toBytesBEAux : Nat → Nat → Bytes
  | 0, _ => []
  | fuel + 1, x => if x = 0 then [] else toBytesBEAux fuel (x / 256) ++ [x % 256]

/-- Minimal big-endian byte representation of a natural number, as produced
by `BigUint::to_bytes_be` from the num-bigint crate (`[0]` for zero). -/
def toBytesBE (x : Nat) : Bytes :=
  if x = 0 then [0] else toBytesBEAux x x

/-- Big-endian interpretation of a byte list, as by `BigUint::from_bytes_be`. -/
def fromBytesBE (bs : Bytes) : Nat :=
  bs.foldl (fun a b => a * 256 + b) 0

/-- The byte list an `Mpint` decode recovers after an encode of
`toBytesBE x`: the minimal big-endian digits, except that the single zero
digit of zero is stripped back to the empty list. -/
def mpintRoundValue (x : Nat) : Bytes :=
  if x = 0 then [] else toBytesBE x

/-- A UTF-8 continuation byte (`0x80..=0xBF`). -/
def contB (b : Nat) : Bool := 128 ≤ b && b ≤ 191

/-- Allowed second byte of a three-byte UTF-8 sequence starting with `b`
(the `E0` and `ED` rows exclude overlong forms and surrogates). -/
def utf8SecondOk3 (b c : Nat) : Bool :=
  if b = 224 then 160 ≤ c && c ≤ 191
  else if b = 237 then 128 ≤ c && c ≤ 159
  else contB c

/-- Allowed second byte of a four-byte UTF-8 sequence starting with `b`
(the `F0` and `F4` rows exclude overlong forms and values above U+10FFFF). -/
def utf8SecondOk4 (b c : Nat) : Bool :=
  if b = 240 then 144 ≤ c && c ≤ 191
  else if b = 244 then 128 ≤ c && c ≤ 143
  else contB c

/-- Modelled from the spec: body strings are "decoded as UTF-8 with lossy
replacement of ill-formed sequences" (`String::from_utf8_lossy`, an external
standard-library collaborator). Well-formed sequences are copied unchanged;
each maximal ill-formed subpart is replaced by U+FFFD (bytes `EF BF BD`).
Only the behaviour on well-formed input is relied upon by any claim. -/
def lossyAuxF : Nat → Bytes → Bytes
  | _, [] => []
  | 0, l => l
  | fuel + 1, b :: r =>
    if b < 128 then b :: lossyAuxF fuel r
    else if 194 ≤ b && b ≤ 223 then
      match r with
      | c :: r2 =>
        if contB c then b :: c :: lossyAuxF fuel r2
        else 239 :: 191 :: 189 :: lossyAuxF fuel r
      | [] => [239, 191, 189]
    else if 224 ≤ b && b ≤ 239 then
      match r with
      | c :: r2 =>
        if utf8SecondOk3 b c then
          match r2 with
          | d :: r3 =>
            if contB d then b :: c :: d :: lossyAuxF fuel r3
            else 239 :: 191 :: 189 :: lossyAuxF fuel r2
          | [] => [239, 191, 189]
        else 239 :: 191 :: 189 :: lossyAuxF fuel r
      | [] => [239, 191, 189]
    else if 240 ≤ b && b ≤ 244 then
      match r with
      | c :: r2 =>
        if utf8SecondOk4 b c then
          match r2 with
          | d :: r3 =>
            if contB d then
              match r3 with
              | e :: r4 =>
                if contB e then b :: c :: d :: e :: lossyAuxF fuel r4
                else 239 :: 191 :: 189 :: lossyAuxF fuel r3
              | [] => [239, 191, 189]
            else 239 :: 191 :: 189 :: lossyAuxF fuel r2
          | [] => [239, 191, 189]
        else 239 :: 191 :: 189 :: lossyAuxF fuel r
      | [] => [239, 191, 189]
    else 239 :: 191 :: 189 :: lossyAuxF fuel r

/-- Top-level lossy UTF-8 decode; the fuel (one unit per consumed byte) is an
embedding artifact and never runs out, since every step of `lossyAuxF`
consumes at least one byte. -/
def lossyAux (bs : Bytes) : Bytes := lossyAuxF bs.length bs

/-- Modelled from the spec: strict UTF-8 validity as checked by
`String::from_utf8` for the header and comment tokens (external
standard-library collaborator); same sequence table as `lossyAux`. -/
def utf8Valid : Bytes → Bool
  | [] => true
  | b :: r =>
    if b < 128 then utf8Valid r
    else if 194 ≤ b && b ≤ 223 then
      match r with
      | c :: r2 => contB c && utf8Valid r2
      | [] => false
    else if 224 ≤ b && b ≤ 239 then
      match r with
      | c :: r2 =>
        utf8SecondOk3 b c &&
          (match r2 with
           | d :: r3 => contB d && utf8Valid r3
           | [] => false)
      | [] => false
    else if 240 ≤ b && b ≤ 244 then
      match r with
      | c :: r2 =>
        utf8SecondOk4 b c &&
          (match r2 with
           | d :: r3 =>
             contB d &&
               (match r3 with
                | e :: r4 => contB e && utf8Valid r4
                | [] => false)
           | [] => false)
      | [] => false
    else false

/-- Decoder of `SshString` (ssh/mod.rs): a length-prefixed buffer decoded
with `String::from_utf8_lossy`; the string is modelled by its UTF-8 bytes. -/
def parseSshString : Parser Bytes := fun bs =>
  match parseByteArray bs with
  | .ok buf r => .ok (lossyAux buf) r
  | .error e => .error e
  | .crash => .crash

/-- Encoder of `SshString` (ssh/mod.rs): the string's byte length then its
UTF-8 bytes. -/
def encSshString (s : Bytes) : Bytes :=
  writeU32 s.length ++ s

/-- The `SshCertType` enum (certificate.rs). -/
inductive SshCertType where
  | client
  | host
  deriving DecidableEq, Repr

/-- Conversion `Into<u32> for SshCertType` (certificate.rs). -/
def SshCertType.toU32 : SshCertType → Nat
  | .client => 1
  | .host => 2

/-- Decoder of `SshCertType` (certificate.rs, `impl SshParser`): a big-endian
`u32`, accepted only for 1 or 2 (`TryFrom<u32>`). -/
def parseCertType : Parser SshCertType := fun bs =>
  match readU32 bs with
  | .ok n r =>
      match n with
      | 1 => .ok .client r
      | 2 => .ok .host r
      | x => .error (.invalidCertificateType x)
  | .error e => .error e
  | .crash => .crash

/-- Encoder of `SshCertType`: its `u32` value, big-endian. -/
def encCertType (t : SshCertType) : Bytes := writeU32 t.toU32

/-- The `SshCertificateKeyType` enum (certificate.rs); only RSA exists. -/
inductive SshCertificateKeyType where
  | sshRsaV01
  deriving DecidableEq, Repr

/-- The `SshCriticalOptionType` enum (certificate.rs). -/
inductive SshCriticalOptionType where
  | forceCommand
  | sourceAddress
  | verifyRequired
  deriving DecidableEq, Repr

/-- The `SshExtensionType` enum (certificate.rs). -/
inductive SshExtensionType where
  | noTouchRequired
  | permitX11Forwarding
  | permitAgentForwarding
  | permitPortForwarding
  | permitPty
  | permitUserPc
  deriving DecidableEq, Repr

/-- ASCII bytes of the header string `"ssh-rsa-cert-v01@openssh.com"`. -/
def headerBytes : Bytes :=
  [115, 115, 104, 45, 114, 115, 97, 45, 99, 101, 114, 116, 45, 118, 48, 49,
   64, 111, 112, 101, 110, 115, 115, 104, 46, 99, 111, 109]

/-- ASCII bytes of `"ssh-rsa"`. -/
def sshRsaBytes : Bytes := [115, 115, 104, 45, 114, 115, 97]

/-- ASCII bytes of `"force-command"`. -/
def forceCommandBytes : Bytes :=
  [102, 111, 114, 99, 101, 45, 99, 111, 109, 109, 97, 110, 100]

/-- ASCII bytes of `"source-address"`. -/
def sourceAddressBytes : Bytes :=
  [115, 111, 117, 114, 99, 101, 45, 97, 100, 100, 114, 101, 115, 115]

/-- ASCII bytes of `"verify-required"`. -/
def verifyRequiredBytes : Bytes :=
  [118, 101, 114, 105, 102, 121, 45, 114, 101, 113, 117, 105, 114, 101, 100]

/-- ASCII bytes of `"no-touch-required"`. -/
def noTouchRequiredBytes : Bytes :=
  [110, 111, 45, 116, 111, 117, 99, 104, 45, 114, 101, 113, 117, 105, 114,
   101, 100]

/-- ASCII bytes of `"permit-X11-forwarding"`. -/
def permitX11ForwardingBytes : Bytes :=
  [112, 101, 114, 109, 105, 116, 45, 88, 49, 49, 45, 102, 111, 114, 119, 97,
   114, 100, 105, 110, 103]

/-- ASCII bytes of `"permit-agent-forwarding"`. -/
def permitAgentForwardingBytes : Bytes :=
  [112, 101, 114, 109, 105, 116, 45, 97, 103, 101, 110, 116, 45, 102, 111,
   114, 119, 97, 114, 100, 105, 110, 103]

/-- ASCII bytes of `"permit-port-forwarding"`. -/
def permitPortForwardingBytes : Bytes :=
  [112, 101, 114, 109, 105, 116, 45, 112, 111, 114, 116, 45, 102, 111, 114,
   119, 97, 114, 100, 105, 110, 103]

/-- ASCII bytes of `"permit-pty"`. -/
def permitPtyBytes : Bytes :=
  [112, 101, 114, 109, 105, 116, 45, 112, 116, 121]

/-- ASCII bytes of `"permit-user-rc"`. -/
def permitUserRcBytes : Bytes :=
  [112, 101, 114, 109, 105, 116, 45, 117, 115, 101, 114, 45, 114, 99]

/-- Conversion `TryFrom<String> for SshCriticalOptionType` (certificate.rs,
lines 95-106): any name outside the three known ones is rejected with
`UnsupportedCriticalOptionType` carrying that name. The Rust `String` is
modelled by its UTF-8 bytes. -/
def criticalOptionFromBytes (s : Bytes) : Except CertError SshCriticalOptionType :=
  if s = forceCommandBytes then .ok .forceCommand
  else if s = sourceAddressBytes then .ok .sourceAddress
  else if s = verifyRequiredBytes then .ok .verifyRequired
  else .error (.unsupportedCriticalOptionType s)

/-- Conversion `ToString for SshCriticalOptionType` (certificate.rs). -/
def criticalOptionBytes : SshCriticalOptionType → Bytes
  | .forceCommand => forceCommandBytes
  | .sourceAddress => sourceAddressBytes
  | .verifyRequired => verifyRequiredBytes

/-- Conversion `TryFrom<String> for SshExtensionType` (certificate.rs, lines
184-198): any name outside the six known ones is rejected with
`UnsupportedExtensionType` carrying that name. -/
def extensionFromBytes (s : Bytes) : Except CertError SshExtensionType :=
  if s = noTouchRequiredBytes then .ok .noTouchRequired
  else if s = permitX11ForwardingBytes then .ok .permitX11Forwarding
  else if s = permitAgentForwardingBytes then .ok .permitAgentForwarding
  else if s = permitPortForwardingBytes then .ok .permitPortForwarding
  else if s = permitPtyBytes then .ok .permitPty
  else if s = permitUserRcBytes then .ok .permitUserPc
  else .error (.unsupportedExtensionType s)

/-- Conversion `ToString for SshExtensionType` (certificate.rs). -/
def extensionBytes : SshExtensionType → Bytes
  | .noTouchRequired => noTouchRequiredBytes
  | .permitX11Forwarding => permitX11ForwardingBytes
  | .permitAgentForwarding => permitAgentForwardingBytes
  | .permitPortForwarding => permitPortForwardingBytes
  | .permitPty => permitPtyBytes
  | .permitUserPc => permitUserRcBytes

/-- Decoder of one `SshCriticalOption` (certificate.rs): two `SshString`s
(type then data), then `TryFrom` on the type name. -/
def parseCriticalOption : Parser (SshCriticalOptionType × Bytes) := fun bs =>
  match parseSshString bs with
  | .ok t r =>
      match parseSshString r with
      | .ok d r2 =>
          match criticalOptionFromBytes t with
          | .ok ot => .ok (ot, d) r2
          | .error e => .error e
      | .error e => .error e
      | .crash => .crash
  | .error e => .error e
  | .crash => .crash

/-- Encoder of one `SshCriticalOption`: its type name then its data, each as
an `SshString`. -/
def encCriticalOption (x : SshCriticalOptionType × Bytes) : Bytes :=
  encSshString (criticalOptionBytes x.1) ++ encSshString x.2

/-- Decoder of one `SshExtension` (certificate.rs): same framing as a
critical option. -/
def parseExtension : Parser (SshExtensionType × Bytes) := fun bs =>
  match parseSshString bs with
  | .ok t r =>
      match parseSshString r with
      | .ok d r2 =>
          match extensionFromBytes t with
          | .ok et => .ok (et, d) r2
          | .error e => .error e
      | .error e => .error e
      | .crash => .crash
  | .error e => .error e
  | .crash => .crash

/-- Encoder of one `SshExtension`. -/
def encExtension (x : SshExtensionType × Bytes) : Bytes :=
  encSshString (extensionBytes x.1) ++ encSshString x.2

/-- The source's `while cursor.position() < len` element loop: elements are
parsed until the payload is exhausted; a parse failure aborts the list. The
fuel (one unit per iteration) is an embedding artifact: every successful
element parse consumes at least one byte, so fuel equal to the payload length
never runs out. On success the loop has consumed everything, so the returned
rest is empty. -/
def elemsLoop (p : Parser α) : Nat → Bytes → PResult (List α)
  | _, [] => .ok [] []
  | 0, _ :: _ => .error .io
  | fuel + 1, b :: r =>
      match p (b :: r) with
      | .ok x rest =>
          match elemsLoop p fuel rest with
          | .ok xs r2 => .ok (x :: xs) r2
          | .error e => .error e
          | .crash => .crash
      | .error e => .error e
      | .crash => .crash

/-- Decoder of `Vec<String>` (certificate.rs, `impl SshParser for
Vec<String>`): an outer `ByteArray` whose payload is parsed as `SshString`
elements until exhausted. -/
def parseStringList : Parser (List Bytes) := fun bs =>
  match parseByteArray bs with
  | .ok payload r =>
      match elemsLoop parseSshString payload.length payload with
      | .ok xs _ => .ok xs r
      | .error e => .error e
      | .crash => .crash
  | .error e => .error e
  | .crash => .crash

/-- Encoder of `Vec<String>`: the concatenated element encodings wrapped in a
`ByteArray`. -/
def encStringList (xs : List Bytes) : Bytes :=
  encByteArray (xs.flatMap encSshString)

/-- Decoder of `Vec<SshCriticalOption>` (certificate.rs): same list framing
with critical-option elements. -/
def parseCriticalOptionList : Parser (List (SshCriticalOptionType × Bytes)) := fun bs =>
  match parseByteArray bs with
  | .ok payload r =>
      match elemsLoop parseCriticalOption payload.length payload with
      | .ok xs _ => .ok xs r
      | .error e => .error e
      | .crash => .crash
  | .error e => .error e
  | .crash => .crash

/-- Encoder of `Vec<SshCriticalOption>` (the source's debug `println!` does
not contribute to the byte stream). -/
def encCriticalOptionList (xs : List (SshCriticalOptionType × Bytes)) : Bytes :=
  encByteArray (xs.flatMap encCriticalOption)

/-- Decoder of `Vec<SshExtension>` (certificate.rs). -/
def parseExtensionList : Parser (List (SshExtensionType × Bytes)) := fun bs =>
  match parseByteArray bs with
  | .ok payload r =>
      match elemsLoop parseExtension payload.length payload with
      | .ok xs _ => .ok xs r
      | .error e => .error e
      | .crash => .crash
  | .error e => .error e
  | .crash => .crash

/-- Encoder of `Vec<SshExtension>`. -/
def encExtensionList (xs : List (SshExtensionType × Bytes)) : Bytes :=
  encByteArray (xs.flatMap encExtension)

/-- The `SshCertificate` record (certificate.rs, lines 312-328). An RSA
public key (`SshPublicKey` with inner `SshInnerPublicKey::Rsa`) is modelled
by the pair of naturals `(e, n)` it carries (`BigUint` values); `SshTime` is
modelled by its seconds-since-epoch value. Note that the record has no
`reserved` field: the decoder discards that wire field. -/
structure SshCertificate where
  key_type : SshCertificateKeyType
  e : Nat
  n : Nat
  nonce : Bytes
  serial : Nat
  cert_type : SshCertType
  key_id : Bytes
  valid_principals : List Bytes
  valid_after : Nat
  valid_before : Nat
  critical_options : List (SshCriticalOptionType × Bytes)
  extensions : List (SshExtensionType × Bytes)
  sig_e : Nat
  sig_n : Nat
  signature : Bytes
  comment : Bytes
  deriving DecidableEq, Repr

/-- Modelled from the spec: the inner RSA public-key body codec of
`ssh/public_key.rs` (declared in src/ but its file is not included).
Decode per section 4.3: read `SshString` equal to `"ssh-rsa"`, read `Mpint
e`, read `Mpint n`, build the key from `(n, e)`; failure when the name
differs or the external RSA validation rejects `(n, e)`. Leftover bytes in
the slice are ignored by the caller. -/
def parseInnerPublicKey (rsaOk : Nat → Nat → Bool) : Parser (Nat × Nat) := fun bs =>
  match parseSshString bs with
  | .ok name r =>
      if name = sshRsaBytes then
        match parseMpint r with
        | .ok eB r2 =>
            match parseMpint r2 with
            | .ok nB r3 =>
                if rsaOk (fromBytesBE nB) (fromBytesBE eB) then
                  .ok (fromBytesBE eB, fromBytesBE nB) r3
                else .error .invalidPublicKey
            | .error e => .error e
            | .crash => .crash
        | .error e => .error e
        | .crash => .crash
      else .error .invalidPublicKey
  | .error e => .error e
  | .crash => .crash

/-- Modelled from the spec: the inner RSA public-key body encoder of
section 4.3: `SshString("ssh-rsa")`, `Mpint(e.to_bytes_be())`,
`Mpint(n.to_bytes_be())`. -/
def encInnerPublicKey (e n : Nat) : Bytes :=
  encSshString sshRsaBytes ++ encMpint (toBytesBE e) ++ encMpint (toBytesBE n)

/-- Decoder of the binary certificate body (certificate.rs, lines 390-429),
field by field in source order. The inner key-type string must equal the RSA
header; `RsaPublicKey::new` (external) is the `rsaOk` parameter and its
failure is the `rsaError` variant; the `reserved` `ByteArray` is read and
discarded; the embedded signer key is parsed from its own byte-array slice,
whose leftover bytes are ignored; leftover bytes after the signature are
ignored. The comment is not part of the body and is filled by the caller. -/
def decodeBody (rsaOk : Nat → Nat → Bool) : Parser SshCertificate :=
  pbind parseSshString fun ckt =>
  if ckt = headerBytes then
    pbind parseByteArray fun nonce =>
    pbind parseMpint fun eB =>
    pbind parseMpint fun nB =>
    if rsaOk (fromBytesBE nB) (fromBytesBE eB) then
      pbind readU64 fun serial =>
      pbind parseCertType fun certTy =>
      pbind parseSshString fun keyId =>
      pbind parseStringList fun principals =>
      pbind readU64 fun va =>
      pbind readU64 fun vb =>
      pbind parseCriticalOptionList fun opts =>
      pbind parseExtensionList fun exts =>
      pbind parseByteArray fun _reserved =>
      pbind parseByteArray fun sigKeyBytes =>
      fun bs =>
        match parseInnerPublicKey rsaOk sigKeyBytes with
        | .ok sigKey _ =>
            (pbind parseByteArray fun sigBytes => fun rest =>
              .ok { key_type := .sshRsaV01, e := fromBytesBE eB,
                    n := fromBytesBE nB, nonce := nonce, serial := serial,
                    cert_type := certTy, key_id := keyId,
                    valid_principals := principals, valid_after := va,
                    valid_before := vb, critical_options := opts,
                    extensions := exts, sig_e := sigKey.1, sig_n := sigKey.2,
                    signature := sigBytes, comment := [] } rest) bs
        | .error e => .error e
        | .crash => .crash
    else fun _ => .error .rsaError
  else fun _ => .error (.invalidCertificateKeyType ckt)

/-- Encoder of the binary certificate body (certificate.rs, lines 456-479).
The single `key_type` variant writes the RSA header string; the `reserved`
field is always written as an empty `ByteArray`; the signer key body is
nested in a `ByteArray`. -/
def bodyEncode (c : SshCertificate) : Bytes :=
  encSshString headerBytes
  ++ encByteArray c.nonce
  ++ encMpint (toBytesBE c.e)
  ++ encMpint (toBytesBE c.n)
  ++ writeU64 c.serial
  ++ encCertType c.cert_type
  ++ encSshString c.key_id
  ++ encStringList c.valid_principals
  ++ writeU64 c.valid_after
  ++ writeU64 c.valid_before
  ++ encCriticalOptionList c.critical_options
  ++ encExtensionList c.extensions
  ++ encByteArray []
  ++ encByteArray (encInnerPublicKey c.sig_e c.sig_n)
  ++ encByteArray c.signature

/-- The `read_to_buffer_till_whitespace` closure (certificate.rs, lines
359-376): bytes up to the first ASCII space (consumed) or end of input,
together with the rest of the stream. -/
def readToken : Bytes → Bytes × Bytes
  | [] => ([], [])
  | b :: r =>
    if b = 32 then ([], r)
    else
      let (t, rest) := readToken r
      (b :: t, rest)

/-- Modelled from the spec: character of one base64 sextet, standard
alphabet (the external base64 crate with its default configuration). -/
def b64Char (s : Nat) : Nat :=
  if s < 26 then 65 + s
  else if s < 52 then 97 + (s - 26)
  else if s < 62 then 48 + (s - 52)
  else if s = 62 then 43
  else 47

/-- Modelled from the spec: sextet of one base64 character, `none` off the
alphabet (`=` included). -/
def b64Inv (c : Nat) : Option Nat :=
  if 65 ≤ c && c ≤ 90 then some (c - 65)
  else if 97 ≤ c && c ≤ 122 then some (26 + (c - 97))
  else if 48 ≤ c && c ≤ 57 then some (52 + (c - 48))
  else if c = 43 then some 62
  else if c = 47 then some 63
  else none

/-- Modelled from the spec: standard base64 encoding without line wrapping
(`base64::encode`), with `=` padding. -/
def b64encode : Bytes → Bytes
  | [] => []
  | [b1] => [b64Char (b1 / 4), b64Char (b1 % 4 * 16), 61, 61]
  | [b1, b2] =>
      [b64Char (b1 / 4), b64Char (b1 % 4 * 16 + b2 / 16),
       b64Char (b2 % 16 * 4), 61]
  | b1 :: b2 :: b3 :: rest =>
      b64Char (b1 / 4) :: b64Char (b1 % 4 * 16 + b2 / 16)
        :: b64Char (b2 % 16 * 4 + b3 / 64) :: b64Char (b3 % 64)
        :: b64encode rest

/-- Modelled from the spec: standard base64 decoding (`base64::decode`):
groups of four characters, a padded or unpadded final group, non-zero
trailing bits rejected (the crate's default), any character off the alphabet
rejected. Claims only exercise it on canonical encoder output. -/
def b64decode : Bytes → Option Bytes
  | [] => some []
  | [_] => none
  | [c1, c2] =>
      match b64Inv c1, b64Inv c2 with
      | some s1, some s2 =>
          if s2 % 16 = 0 then some [s1 * 4 + s2 / 16] else none
      | _, _ => none
  | [c1, c2, c3] =>
      match b64Inv c1, b64Inv c2, b64Inv c3 with
      | some s1, some s2, some s3 =>
          if s3 % 4 = 0 then some [s1 * 4 + s2 / 16, s2 % 16 * 16 + s3 / 4]
          else none
      | _, _, _ => none
  | c1 :: c2 :: c3 :: c4 :: rest =>
      match b64Inv c1, b64Inv c2 with
      | some s1, some s2 =>
          if c3 = 61 then
            if c4 = 61 && rest.isEmpty && s2 % 16 = 0 then
              some [s1 * 4 + s2 / 16]
            else none
          else
            match b64Inv c3 with
            | some s3 =>
                if c4 = 61 then
                  if rest.isEmpty && s3 % 4 = 0 then
                    some [s1 * 4 + s2 / 16, s2 % 16 * 16 + s3 / 4]
                  else none
                else
                  match b64Inv c4 with
                  | some s4 =>
                      match b64decode rest with
                      | some bs =>
                          some ((s1 * 4 + s2 / 16) :: (s2 % 16 * 16 + s3 / 4)
                            :: (s3 % 4 * 64 + s4) :: bs)
                      | none => none
                  | none => none
            | none => none
      | _, _ => none

/-- Decoder of a whole certificate (certificate.rs, `impl SshParser for
SshCertificate`): header token (strict UTF-8, must equal the RSA header),
base64 token, binary body, then the comment token (strict UTF-8). The
returned rest is the stream left after the comment token. -/
def certDecode (rsaOk : Nat → Nat → Bool) (input : Bytes) : PResult SshCertificate :=
  let t1 := readToken input
  if utf8Valid t1.1 then
    if t1.1 = headerBytes then
      let t2 := readToken t1.2
      match b64decode t2.1 with
      | some body =>
          match decodeBody rsaOk body with
          | .ok c _ =>
              let t3 := readToken t2.2
              if utf8Valid t3.1 then .ok { c with comment := t3.1 } t3.2
              else .error .fromUtf8
          | .error e => .error e
          | .crash => .crash
      | none => .error .base64Decode
    else .error (.unsupportedCertificateType t1.1)
  else .error .fromUtf8

/-- Encoder of a whole certificate (certificate.rs): the header, a space,
the base64 of the binary body, a space, the comment. -/
def certEncode (c : SshCertificate) : Bytes :=
  headerBytes ++ 32 :: (b64encode (bodyEncode c) ++ 32 :: c.comment)

/-- Observer used to state claims about the wire position of the `reserved`
field: skip one framed byte array and return the rest. -/
def baStep (bs : Bytes) : Option Bytes :=
  match parseByteArray bs with
  | .ok _ r => some r
  | _ => none

/-- Observer: drop exactly `n` raw bytes. -/
def dropN (n : Nat) (bs : Bytes) : Option Bytes :=
  if n ≤ bs.length then some (bs.drop n) else none

/-- Observer for the `reserved` field of an encoded certificate body: walk
the body framing (key-type string, nonce, the two mpints, the 8-byte serial
and 4-byte cert type, key id, principals, the two 8-byte timestamps,
critical options, extensions — all framed scalars are length-prefixed byte
arrays on the wire) and return the payload of the thirteenth frame, the
`reserved` byte array. -/
def extractReserved (bs : Bytes) : Option Bytes :=
  match baStep bs with
  | some r1 =>
      match baStep r1 with
      | some r2 =>
          match baStep r2 with
          | some r3 =>
              match baStep r3 with
              | some r4 =>
                  match dropN 12 r4 with
                  | some r5 =>
                      match baStep r5 with
                      | some r6 =>
                          match baStep r6 with
                          | some r7 =>
                              match dropN 16 r7 with
                              | some r8 =>
                                  match baStep r8 with
                                  | some r9 =>
                                      match baStep r9 with
                                      | some r10 =>
                                          match parseByteArray r10 with
                                          | .ok payload _ => some payload
                                          | _ => none
                                      | none => none
                                  | none => none
                              | none => none
                          | none => none
                      | none => none
                  | none => none
              | none => none
          | none => none
      | none => none
  | none => none

/-- The `SshCertificateGenerationError` enum (certificate.rs, lines
489-505). -/
inductive SshCertificateGenerationError where
  | missingPublicKey
  | missingCertificateType
  | missingKeyId
  | invalidTime
  | missingSignatureKey
  | missingSignature
  | missingSerial
  deriving DecidableEq, Repr

/-- Whether a generation error is one of the `Missing*` variants. -/
def SshCertificateGenerationError.isMissing : SshCertificateGenerationError → Bool
  | .missingPublicKey => true
  | .missingCertificateType => true
  | .missingKeyId => true
  | .invalidTime => false
  | .missingSignatureKey => true
  | .missingSignature => true
  | .missingSerial => true

/-- The `SshCertificateBuilderInner` state (certificate.rs, lines 507-522):
required fields are `Option`s, list fields and the comment default to
empty. A public key is the pair `(e, n)`. -/
structure SshCertificateBuilderInner where
  key_type : SshCertificateKeyType := .sshRsaV01
  public_key : Option (Nat × Nat) := none
  serial : Option Nat := none
  cert_type : Option SshCertType := none
  key_id : Option Bytes := none
  valid_principals : List Bytes := []
  valid_after : Option Nat := none
  valid_before : Option Nat := none
  critical_options : List (SshCriticalOptionType × Bytes) := []
  extensions : List (SshExtensionType × Bytes) := []
  signature_key : Option (Nat × Nat) := none
  signature : Option Bytes := none
  comment : Bytes := []
  deriving DecidableEq, Repr

/-- The builder's `build` (certificate.rs, lines 609-655). The 32 random
nonce bytes and the wall clock `SystemTime::now()` are external inputs and
appear as parameters. Check order follows the source: a missing
`valid_after` or `valid_before` is `InvalidTime`; then the wall-clock window
check; then the record is built, the first unset required field (in struct
field order: public_key, serial, cert_type, key_id, signature_key,
signature) producing its `Missing*` error. -/
def build (b : SshCertificateBuilderInner) (nonce : Bytes) (now : Nat) :
    Except SshCertificateGenerationError SshCertificate :=
  match b.valid_after with
  | none => .error .invalidTime
  | some va =>
    match b.valid_before with
    | none => .error .invalidTime
    | some vb =>
      if va > now || now ≥ vb then .error .invalidTime
      else
        match b.public_key with
        | none => .error .missingPublicKey
        | some pk =>
          match b.serial with
          | none => .error .missingSerial
          | some serial =>
            match b.cert_type with
            | none => .error .missingCertificateType
            | some certTy =>
              match b.key_id with
              | none => .error .missingKeyId
              | some keyId =>
                match b.signature_key with
                | none => .error .missingSignatureKey
                | some sigKey =>
                  match b.signature with
                  | none => .error .missingSignature
                  | some sigBytes =>
                    .ok { key_type := b.key_type, e := pk.1, n := pk.2,
                          nonce := nonce, serial := serial,
                          cert_type := certTy, key_id := keyId,
                          valid_principals := b.valid_principals,
                          valid_after := va, valid_before := vb,
                          critical_options := b.critical_options,
                          extensions := b.extensions, sig_e := sigKey.1,
                          sig_n := sigKey.2, signature := sigBytes,
                          comment := b.comment }

/-- Modelled from the spec: DER length octets (`Length::serialize` of
picky-asn1-der, outside src/): short form below `0x80`, otherwise `0x80 + k`
followed by the `k` big-endian bytes of the length. -/
def derLength (n : Nat) : Bytes :=
  if n < 128 then [n] else (128 + (toBytesBE n).length) :: toBytesBE n

/-- Modelled from the spec: `Tag::application_constructed(T).inner()` of
picky-asn1 (outside src/): class bits `01` (application, `0x40`), the
constructed bit (`0x20`), and the tag number. -/
def applicationConstructedTag (t : Nat) : Nat := 64 + 32 + t

/-- Modelled from the spec: the DER TLV of a `UTF8String` value as written
by the picky-asn1-der serializer (outside src/): tag `12`, DER length, then
the UTF-8 bytes. -/
def utf8StringDer (s : Bytes) : Bytes := 12 :: (derLength s.length ++ s)

/-- Serializer of `ApplicationTag<V, T>` (application_tag.rs, lines 85-108):
the inner value is serialized to its own DER bytes, then wrapped under one
application-class constructed tag byte and a DER length. -/
def appTagSerialize (t : Nat) (innerDer : Bytes) : Bytes :=
  applicationConstructedTag t :: (derLength innerDer.length ++ innerDer)

/-- Modelled from the spec: reading DER length octets. -/
def derReadLength : Bytes → Option (Nat × Bytes)
  | [] => none
  | l :: r =>
    if l < 128 then some (l, r)
    else
      let k := l - 128
      if k ≤ r.length then some (fromBytesBE (r.take k), r.drop k) else none

/-- Deserializer of `ApplicationTag<Utf8StringAsn1, T>` (application_tag.rs,
lines 18-83, with the DER plumbing of picky-asn1-der modelled from the
spec): peek the tag byte, require class application (bits 7..6 equal `01`)
and tag number `T` (low five bits), read the DER length, then decode the
inner `UTF8String` TLV and return its content bytes. -/
def appTagDeserializeUtf8 (t : Nat) (bs : Bytes) : Option Bytes :=
  match bs with
  | [] => none
  | b :: r =>
    if b / 64 = 1 && b % 32 = t then
      match derReadLength r with
      | some (len, r2) =>
          if len ≤ r2.length then
            match r2.take len with
            | 12 :: p2 =>
                match derReadLength p2 with
                | some (l2, content) =>
                    if content.length = l2 then some content else none
                | none => none
            | _ => none
          else none
      | none => none
    else none

/-- A string field that round-trips: its `u32` length does not truncate, it
is a fixed point of lossy UTF-8 decoding (every well-formed string is), and
its bytes are actual bytes. -/
abbrev strFix (s : Bytes) : Prop :=
  s.length < 2 ^ 32 ∧ lossyAux s = s ∧ s.all (· < 256) = true

/-- Well-formedness of a certificate value, collecting the invariants the
Rust types guarantee (byte buffers hold bytes, `u32` lengths do not
truncate, `u64` values fit, `String`s are well-formed UTF-8) together with
acceptance of both RSA keys by the external validation and a comment that
contains no token separator. -/
abbrev certWf (rsaOk : Nat → Nat → Bool) (c : SshCertificate) : Prop :=
  c.nonce.length < 2 ^ 32 ∧ c.nonce.all (· < 256) = true ∧
  (toBytesBE c.e).length + 1 < 2 ^ 32 ∧ (toBytesBE c.n).length + 1 < 2 ^ 32 ∧
  c.serial < 2 ^ 64 ∧ c.valid_after < 2 ^ 64 ∧ c.valid_before < 2 ^ 64 ∧
  strFix c.key_id ∧
  (∀ p ∈ c.valid_principals, strFix p) ∧
  (c.valid_principals.flatMap encSshString).length < 2 ^ 32 ∧
  (∀ x ∈ c.critical_options, strFix x.2) ∧
  (c.critical_options.flatMap encCriticalOption).length < 2 ^ 32 ∧
  (∀ x ∈ c.extensions, strFix x.2) ∧
  (c.extensions.flatMap encExtension).length < 2 ^ 32 ∧
  (toBytesBE c.sig_e).length + 1 < 2 ^ 32 ∧
  (toBytesBE c.sig_n).length + 1 < 2 ^ 32 ∧
  (encInnerPublicKey c.sig_e c.sig_n).length < 2 ^ 32 ∧
  c.signature.length < 2 ^ 32 ∧ c.signature.all (· < 256) = true ∧
  utf8Valid c.comment = true ∧ 32 ∉ c.comment ∧
  rsaOk c.n c.e = true ∧ rsaOk c.sig_n c.sig_e = true

/-- Length-related well-formedness only (no UTF-8, separator or RSA
conditions): enough for the wire frames of an encoded body to re-align. -/
abbrev certWfSizes (c : SshCertificate) : Prop :=
  c.nonce.length < 2 ^ 32 ∧
  (toBytesBE c.e).length + 1 < 2 ^ 32 ∧ (toBytesBE c.n).length + 1 < 2 ^ 32 ∧
  c.key_id.length < 2 ^ 32 ∧
  (c.valid_principals.flatMap encSshString).length < 2 ^ 32 ∧
  (c.critical_options.flatMap encCriticalOption).length < 2 ^ 32 ∧
  (c.extensions.flatMap encExtension).length < 2 ^ 32 ∧
  (encInnerPublicKey c.sig_e c.sig_n).length < 2 ^ 32 ∧
  c.signature.length < 2 ^ 32

/-- External RSA validation that accepts everything; used to instantiate
the `rsaOk` parameter on concrete inputs. -/
def rsaOkAll : Nat → Nat → Bool := fun _ _ => true

/-- A small concrete certificate value used to instantiate the quantified
theorems. -/
def sampleCert : SshCertificate :=
  { key_type := .sshRsaV01, e := 3, n := 5, nonce := [1, 2], serial := 7,
    cert_type := .client, key_id := [97], valid_principals := [[98]],
    valid_after := 0, valid_before := 100,
    critical_options := [(.forceCommand, [99])],
    extensions := [(.permitPty, [])],
    sig_e := 3, sig_n := 5, signature := [9], comment := [117] }

/-- The certificate value obtained by decoding `badReservedInput`: same
fields, and no reserved content survives because the record has no such
field. -/
def cexCert : SshCertificate :=
  { key_type := .sshRsaV01, e := 3, n := 5, nonce := [1, 2], serial := 7,
    cert_type := .client, key_id := [97], valid_principals := [],
    valid_after := 0, valid_before := 100, critical_options := [],
    extensions := [], sig_e := 3, sig_n := 5, signature := [9],
    comment := [117] }

/-- A binary certificate body whose `reserved` field is the nonempty byte
string `[1]`; every other field matches `cexCert`. -/
def badReservedBody : Bytes :=
  encSshString headerBytes ++ encByteArray [1, 2] ++ encMpint (toBytesBE 3)
  ++ encMpint (toBytesBE 5) ++ writeU64 7 ++ encCertType .client
  ++ encSshString [97] ++ encStringList [] ++ writeU64 0 ++ writeU64 100
  ++ encCriticalOptionList [] ++ encExtensionList []
  ++ encByteArray [1]
  ++ encByteArray (encInnerPublicKey 3 5) ++ encByteArray [9]

/-- A full textual certificate carrying `badReservedBody`. -/
def badReservedInput : Bytes :=
  headerBytes ++ 32 :: (b64encode badReservedBody ++ 32 :: [117])

/-- ASCII bytes of `"example.com"`. -/
def exampleComBytes : Bytes :=
  [101, 120, 97, 109, 112, 108, 101, 46, 99, 111, 109]

/-- A builder state with every required field set except `valid_after`. -/
def builderNoValidAfter : SshCertificateBuilderInner :=
  { public_key := some (3, 5), serial := some 7, cert_type := some .client,
    key_id := some [97], valid_before := some 100,
    signature_key := some (3, 5), signature := some [9] }

/-- A builder state with both validity times set and everything else
unset. -/
def builderTimesOnly : SshCertificateBuilderInner :=
  { valid_after := some 0, valid_before := some 100 }

/-! Theorems. -/

/-- Claim C2, counterexample: decoding the `Mpint` wire bytes
`[0x00, 0x00, 0x00, 0x02, 0x00, 0x80]` does not yield the value
`[0x00, 0x80]` claimed by the spec's scenario. -/
theorem mpint_decode_strip_cex :
    mpintDecodeValue [0, 0, 0, 2, 0, 128] ≠ some [0, 128] := by
  decide

/-- Claim C2, amended: decoding the `Mpint` wire bytes
`[0x00, 0x00, 0x00, 0x02, 0x00, 0x80]` yields the value `[0x80]`: the
leading zero (positive-sign padding) is stripped, as the spec's own prose
in section 4.1 describes. -/
theorem mpint_decode_strips_leading_zero :
    mpintDecodeValue [0, 0, 0, 2, 0, 128] = some [128] := by
  decide

/-- Claim C3, counterexample: encoding the `Mpint` payload `[0x80]` does not
produce `[0x00, 0x00, 0x00, 0x01, 0x80]` as the spec's scenario claims. -/
theorem mpint_encode_high_bit_cex :
    encMpint [128] ≠ [0, 0, 0, 1, 128] := by
  decide

/-- Claim C3, amended: encoding the `Mpint` payload `[0x80]` (high bit set)
prepends a zero byte and reports length 2, producing
`[0x00, 0x00, 0x00, 0x02, 0x00, 0x80]`, as section 4.1 of the spec and the
RFC 4251 comment in the source require. -/
theorem mpint_encode_high_bit_pads :
    encMpint [128] = [0, 0, 0, 2, 0, 128] := by
  decide

/-- Claim C4 (code bug), evaluation at the failing input: the empty `Mpint`
payload encodes to the four zero length bytes, and decoding that panics
(out-of-bounds index on `buffer[0]`) instead of returning the empty value,
so `decode(encode(v)) = v` fails at `v = Mpint(vec![])`. -/
theorem mpint_empty_roundtrip_crashes :
    parseMpint (encMpint []) = .crash := by
  decide

/-- Claim C5: on any stream whose first four bytes are the big-endian `u32`
zero, `Mpint` decode reads an empty buffer, indexes its first byte and
panics, whatever bytes follow. -/
theorem mpint_decode_zero_length_crashes (rest : Bytes) :
    parseMpint (0 :: 0 :: 0 :: 0 :: rest) = .crash := by
  simp [parseMpint, parseByteArray, readU32]

/-- Claim C8: every critical-option name outside the three known ones is
rejected with `UnsupportedCriticalOptionType` carrying that name, and every
extension name outside the six known ones is rejected with
`UnsupportedExtensionType` carrying that name. -/
theorem unknown_option_and_extension_rejected :
    (∀ s : Bytes, s ≠ forceCommandBytes → s ≠ sourceAddressBytes →
      s ≠ verifyRequiredBytes →
      criticalOptionFromBytes s = .error (.unsupportedCriticalOptionType s)) ∧
    (∀ s : Bytes, s ≠ noTouchRequiredBytes → s ≠ permitX11ForwardingBytes →
      s ≠ permitAgentForwardingBytes → s ≠ permitPortForwardingBytes →
      s ≠ permitPtyBytes → s ≠ permitUserRcBytes →
      extensionFromBytes s = .error (.unsupportedExtensionType s)) := by
  constructor
  · intro s h1 h2 h3
    simp [criticalOptionFromBytes, h1, h2, h3]
  · intro s h1 h2 h3 h4 h5 h6
    simp [extensionFromBytes, h1, h2, h3, h4, h5, h6]

/-- Claim C8, witness at the concrete unknown name `"x"` (byte `[120]`). -/
theorem unknown_option_and_extension_rejected_witness :
    criticalOptionFromBytes [120]
      = .error (.unsupportedCriticalOptionType [120]) ∧
    extensionFromBytes [120] = .error (.unsupportedExtensionType [120]) :=
  ⟨unknown_option_and_extension_rejected.1 [120] (by decide) (by decide)
      (by decide),
   unknown_option_and_extension_rejected.2 [120] (by decide) (by decide)
      (by decide) (by decide) (by decide) (by decide)⟩

/-- Claim C9: serializing `ApplicationTag<Utf8String("example.com"), 10>`
produces exactly `[106, 13, 12, 11]` followed by the ASCII of
`"example.com"`, and deserializing those bytes returns the same string. -/
theorem application_tag_roundtrip_example :
    appTagSerialize 10 (utf8StringDer exampleComBytes)
      = [106, 13, 12, 11, 101, 120, 97, 109, 112, 108, 101, 46, 99, 111, 109]
    ∧ appTagDeserializeUtf8 10
        [106, 13, 12, 11, 101, 120, 97, 109, 112, 108, 101, 46, 99, 111, 109]
      = some exampleComBytes := by
  constructor
  · decide
  · decide

/-- Claim C7: whenever both validity times are set and `valid_after > now`
or `valid_before <= now` for the wall clock `now` at build time, `build`
returns `InvalidTime` (whatever the other fields hold). -/
theorem builder_invalid_time (b : SshCertificateBuilderInner) (nonce : Bytes)
    (now va vb : Nat) (hva : b.valid_after = some va)
    (hvb : b.valid_before = some vb) (h : va > now ∨ vb ≤ now) :
    build b nonce now = .error .invalidTime := by
  have hc : (va > now || now ≥ vb) = true := by
    rcases h with h | h <;> simp [h]
  simp [build, hva, hvb, hc]

/-- Claim C7, witness: a builder whose window `[0, 100)` has already closed
at wall-clock time 200. -/
theorem builder_invalid_time_witness :
    build builderTimesOnly [] 200 = .error .invalidTime :=
  builder_invalid_time builderTimesOnly [] 200 0 100 (by decide) (by decide)
    (Or.inr (by decide))

/-- Claim C6, counterexample: with every required field set except
`valid_after`, `build` returns `InvalidTime`, which is not one of the
`Missing*` errors — so a missing `valid_after` does not produce "the typed
`Missing*` error corresponding to that field" as the claim states (no such
variant exists). -/
theorem builder_missing_valid_after_cex :
    build builderNoValidAfter [] 50 = .error .invalidTime ∧
    SshCertificateGenerationError.invalidTime.isMissing = false :=
  ⟨rfl, rfl⟩

/-- Claim C6, amended: `build` requires all eight fields. A missing
`valid_after` or `valid_before` yields `InvalidTime` (checked first). When
both times are set and pass the wall-clock check, the first unset field in
evaluation order among public_key, serial, cert_type, key_id,
signature_key, signature yields its corresponding `Missing*` error. -/
theorem builder_missing_field_errors (b : SshCertificateBuilderInner)
    (nonce : Bytes) (now : Nat) :
    (b.valid_after = none → build b nonce now = .error .invalidTime) ∧
    (b.valid_before = none → build b nonce now = .error .invalidTime) ∧
    (∀ va vb, b.valid_after = some va → b.valid_before = some vb →
      va ≤ now → now < vb →
      ((b.public_key = none → build b nonce now = .error .missingPublicKey) ∧
       (b.public_key ≠ none → b.serial = none →
         build b nonce now = .error .missingSerial) ∧
       (b.public_key ≠ none → b.serial ≠ none → b.cert_type = none →
         build b nonce now = .error .missingCertificateType) ∧
       (b.public_key ≠ none → b.serial ≠ none → b.cert_type ≠ none →
         b.key_id = none → build b nonce now = .error .missingKeyId) ∧
       (b.public_key ≠ none → b.serial ≠ none → b.cert_type ≠ none →
         b.key_id ≠ none → b.signature_key = none →
         build b nonce now = .error .missingSignatureKey) ∧
       (b.public_key ≠ none → b.serial ≠ none → b.cert_type ≠ none →
         b.key_id ≠ none → b.signature_key ≠ none → b.signature = none →
         build b nonce now = .error .missingSignature))) := by
  refine ⟨fun h => by simp [build, h], fun h => ?_, ?_⟩
  · unfold build
    cases hva : b.valid_after <;> simp [h]
  · intro va vb hva hvb h1 h2
    have hc : (va > now || now ≥ vb) = false := by
      simp only [Bool.or_eq_false_iff, decide_eq_false_iff_not]
      omega
    refine ⟨fun h => by simp [build, hva, hvb, hc, h], ?_, ?_, ?_, ?_, ?_⟩
    · intro hpk h
      obtain ⟨pk, hpk⟩ := Option.ne_none_iff_exists'.mp hpk
      simp [build, hva, hvb, hc, hpk, h]
    · intro hpk hser h
      obtain ⟨pk, hpk⟩ := Option.ne_none_iff_exists'.mp hpk
      obtain ⟨se, hser⟩ := Option.ne_none_iff_exists'.mp hser
      simp [build, hva, hvb, hc, hpk, hser, h]
    · intro hpk hser hct h
      obtain ⟨pk, hpk⟩ := Option.ne_none_iff_exists'.mp hpk
      obtain ⟨se, hser⟩ := Option.ne_none_iff_exists'.mp hser
      obtain ⟨ct, hct⟩ := Option.ne_none_iff_exists'.mp hct
      simp [build, hva, hvb, hc, hpk, hser, hct, h]
    · intro hpk hser hct hki h
      obtain ⟨pk, hpk⟩ := Option.ne_none_iff_exists'.mp hpk
      obtain ⟨se, hser⟩ := Option.ne_none_iff_exists'.mp hser
      obtain ⟨ct, hct⟩ := Option.ne_none_iff_exists'.mp hct
      obtain ⟨ki, hki⟩ := Option.ne_none_iff_exists'.mp hki
      simp [build, hva, hvb, hc, hpk, hser, hct, hki, h]
    · intro hpk hser hct hki hsk h
      obtain ⟨pk, hpk⟩ := Option.ne_none_iff_exists'.mp hpk
      obtain ⟨se, hser⟩ := Option.ne_none_iff_exists'.mp hser
      obtain ⟨ct, hct⟩ := Option.ne_none_iff_exists'.mp hct
      obtain ⟨ki, hki⟩ := Option.ne_none_iff_exists'.mp hki
      obtain ⟨sk, hsk⟩ := Option.ne_none_iff_exists'.mp hsk
      simp [build, hva, hvb, hc, hpk, hser, hct, hki, hsk, h]

/-- Claim C6, witness: on the builder with only the validity times set and
wall clock inside the window, `build` reports the missing public key. -/
theorem builder_missing_field_errors_witness :
    build builderTimesOnly [] 50 = .error .missingPublicKey :=
  ((builder_missing_field_errors builderTimesOnly [] 50).2.2 0 100
    (by decide) (by decide) (by decide) (by decide)).1 (by decide)

/-! Round-trip lemmas for the wire primitives. -/

theorem readU32_enc (x : Nat) (r : Bytes) (h : x < 2 ^ 32) :
    readU32 (writeU32 x ++ r) = .ok x r := by
  simp only [writeU32, List.cons_append, List.nil_append, readU32,
    PResult.ok.injEq, and_true]
  omega

theorem readU64_enc (x : Nat) (r : Bytes) (h : x < 2 ^ 64) :
    readU64 (writeU64 x ++ r) = .ok x r := by
  simp only [writeU64, List.cons_append, List.nil_append, readU64,
    PResult.ok.injEq, and_true]
  omega

theorem parseByteArray_enc (bs r : Bytes) (h : bs.length < 2 ^ 32) :
    parseByteArray (encByteArray bs ++ r) = .ok bs r := by
  simp only [encByteArray, List.append_assoc, parseByteArray,
    readU32_enc bs.length (bs ++ r) h, List.length_append]
  rw [if_pos (by omega)]
  simp [List.take_left, List.drop_left]

theorem parseSshString_enc (s r : Bytes) (h : s.length < 2 ^ 32)
    (hfix : lossyAux s = s) :
    parseSshString (encSshString s ++ r) = .ok s r := by
  have : encSshString s = encByteArray s := rfl
  simp [parseSshString, this, parseByteArray_enc s r h, hfix]

theorem toBytesBEAux_zero (fuel : Nat) : toBytesBEAux fuel 0 = [] := by
  cases fuel <;> simp [toBytesBEAux]

theorem fromBytesBE_toBytesBEAux (fuel x : Nat) (h : x ≤ fuel) :
    fromBytesBE (toBytesBEAux fuel x) = x := by
  induction fuel generalizing x with
  | zero =>
    have hx : x = 0 := by omega
    subst hx
    simp [toBytesBEAux, fromBytesBE]
  | succ fuel ih =>
    by_cases hx : x = 0
    · subst hx
      simp [toBytesBEAux, fromBytesBE]
    · have hdiv : x / 256 ≤ fuel := by
        have := Nat.div_lt_self (Nat.pos_of_ne_zero hx) (by omega : 1 < 256)
        omega
      simp only [toBytesBEAux, hx, if_false]
      unfold fromBytesBE at ih ⊢
      rw [List.foldl_append, ih (x / 256) hdiv]
      simp
      omega

theorem toBytesBEAux_facts (fuel x : Nat) (h : x ≤ fuel) (hx : 0 < x) :
    ∃ b t, toBytesBEAux fuel x = b :: t ∧ b ≠ 0 ∧
      (toBytesBEAux fuel x).all (· < 256) = true := by
  induction fuel generalizing x with
  | zero => omega
  | succ fuel ih =>
    have hne : x ≠ 0 := by omega
    by_cases hq : x / 256 = 0
    · refine ⟨x % 256, [], ?_, ?_, ?_⟩
      · simp only [toBytesBEAux, hne, if_false, hq, toBytesBEAux_zero]
        simp
      · omega
      · simp only [toBytesBEAux, hne, if_false, hq, toBytesBEAux_zero]
        simp
        omega
    · have hdiv : x / 256 ≤ fuel := by
        have := Nat.div_lt_self hx (by omega : 1 < 256)
        omega
      obtain ⟨b, t, heq, hb, hall⟩ := ih (x / 256) hdiv (Nat.pos_of_ne_zero hq)
      refine ⟨b, t ++ [x % 256], ?_, hb, ?_⟩
      · simp only [toBytesBEAux, hne, if_false, heq]
        simp
      · simp only [toBytesBEAux, hne, if_false, heq]
        rw [heq] at hall
        simp at hall ⊢
        exact ⟨hall.1, hall.2, by omega⟩

theorem fromBytesBE_toBytesBE (x : Nat) : fromBytesBE (toBytesBE x) = x := by
  unfold toBytesBE
  by_cases hx : x = 0
  · subst hx
    simp [fromBytesBE]
  · simp only [hx, if_false]
    exact fromBytesBE_toBytesBEAux x x le_rfl

theorem toBytesBE_cons (x : Nat) :
    ∃ b t, toBytesBE x = b :: t ∧ (b = 0 → x = 0 ∧ t = []) ∧
      (toBytesBE x).all (· < 256) = true := by
  unfold toBytesBE
  by_cases hx : x = 0
  · exact ⟨0, [], by simp [hx], fun _ => ⟨hx, rfl⟩, by simp [hx]⟩
  · simp only [hx, if_false]
    obtain ⟨b, t, heq, hb, hall⟩ :=
      toBytesBEAux_facts x x le_rfl (Nat.pos_of_ne_zero hx)
    exact ⟨b, t, heq, fun h => absurd h hb, hall⟩

theorem fromBytesBE_mpintRoundValue (x : Nat) :
    fromBytesBE (mpintRoundValue x) = x := by
  unfold mpintRoundValue
  by_cases hx : x = 0
  · simp [hx, fromBytesBE]
  · simp [hx, fromBytesBE_toBytesBE]

theorem parseMpint_enc (x : Nat) (r : Bytes)
    (h : (toBytesBE x).length + 1 < 2 ^ 32) :
    parseMpint (encMpint (toBytesBE x) ++ r) = .ok (mpintRoundValue x) r := by
  obtain ⟨b, t, heq, hzero, _⟩ := toBytesBE_cons x
  have h0 : toBytesBE 0 = [0] := by simp [toBytesBE]
  have hx_of_b : x = 0 → b = 0 ∧ t = [] := by
    intro hx
    subst hx
    rw [h0] at heq
    injection heq with h1 h2
    exact ⟨h1.symm, h2.symm⟩
  unfold encMpint
  by_cases hhi : 128 ≤ (toBytesBE x).headD 0
  · rw [if_pos hhi]
    unfold parseMpint
    rw [parseByteArray_enc (0 :: toBytesBE x) r (by simpa using h)]
    have hxne : x ≠ 0 := by
      intro hx0
      obtain ⟨hb0, ht⟩ := hx_of_b hx0
      rw [heq, hb0, ht] at hhi
      simp at hhi
    simp [mpintRoundValue, hxne]
  · rw [if_neg hhi]
    unfold parseMpint
    rw [parseByteArray_enc (toBytesBE x) r (by omega), heq]
    by_cases hb : b = 0
    · obtain ⟨hx0, ht⟩ := hzero hb
      simp [hb, ht, mpintRoundValue, hx0]
    · have hxne : x ≠ 0 := fun hx0 => hb (hx_of_b hx0).1
      simp [hb, mpintRoundValue, hxne, heq]

theorem parseCertType_enc (t : SshCertType) (r : Bytes) :
    parseCertType (encCertType t ++ r) = .ok t r := by
  cases t
  · show parseCertType (encCertType .client ++ r) = .ok .client r
    rw [show encCertType .client = writeU32 1 from rfl]
    unfold parseCertType
    rw [readU32_enc 1 r (by norm_num)]
  · show parseCertType (encCertType .host ++ r) = .ok .host r
    rw [show encCertType .host = writeU32 2 from rfl]
    unfold parseCertType
    rw [readU32_enc 2 r (by norm_num)]

/-! Round-trip lemmas for the typed list codecs. -/

theorem elemsLoop_enc {α : Type} (p : Parser α) (enc : α → Bytes)
    (xs : List α) (fuel : Nat)
    (hfuel : (xs.flatMap enc).length ≤ fuel)
    (helem : ∀ x ∈ xs, ∀ r, p (enc x ++ r) = .ok x r)
    (hne : ∀ x ∈ xs, enc x ≠ []) :
    elemsLoop p fuel (xs.flatMap enc) = .ok xs [] := by
  induction xs generalizing fuel with
  | nil => cases fuel <;> simp [elemsLoop]
  | cons x xs ih =>
    rw [List.flatMap_cons] at hfuel ⊢
    obtain ⟨b, bs', hcons⟩ := List.exists_cons_of_ne_nil (hne x (by simp))
    have hlen : 1 ≤ (enc x).length := by rw [hcons]; simp
    rw [List.length_append] at hfuel
    cases fuel with
    | zero => omega
    | succ fuel =>
      rw [hcons, List.cons_append]
      simp only [elemsLoop]
      rw [← List.cons_append, ← hcons]
      simp only [helem x (by simp) (xs.flatMap enc)]
      simp only [ih fuel (by omega)
        (fun y hy => helem y (List.mem_cons_of_mem _ hy))
        (fun y hy => hne y (List.mem_cons_of_mem _ hy))]

theorem encSshString_ne_nil (s : Bytes) : encSshString s ≠ [] := by
  simp [encSshString, writeU32]

theorem parseStringList_enc (xs : List Bytes) (r : Bytes)
    (hplen : (xs.flatMap encSshString).length < 2 ^ 32)
    (hels : ∀ p ∈ xs, strFix p) :
    parseStringList (encStringList xs ++ r) = .ok xs r := by
  unfold parseStringList encStringList
  simp only [parseByteArray_enc _ r hplen]
  simp only [elemsLoop_enc parseSshString encSshString xs _ le_rfl
    (fun p hp r2 => parseSshString_enc p r2 (hels p hp).1 (hels p hp).2.1)
    (fun p _ => encSshString_ne_nil p)]

theorem criticalOption_name_fix (t : SshCriticalOptionType) :
    (criticalOptionBytes t).length < 2 ^ 32 ∧
      lossyAux (criticalOptionBytes t) = criticalOptionBytes t := by
  cases t <;> exact ⟨by decide, by decide⟩

theorem criticalOptionFromBytes_roundtrip (t : SshCriticalOptionType) :
    criticalOptionFromBytes (criticalOptionBytes t) = .ok t := by
  cases t <;> rfl

theorem parseCriticalOption_enc (x : SshCriticalOptionType × Bytes)
    (r : Bytes) (h : strFix x.2) :
    parseCriticalOption (encCriticalOption x ++ r) = .ok x r := by
  obtain ⟨t, d⟩ := x
  obtain ⟨hdl, hdfix, _⟩ := h
  unfold encCriticalOption parseCriticalOption
  rw [List.append_assoc]
  simp only [parseSshString_enc (criticalOptionBytes t) _
    (criticalOption_name_fix t).1 (criticalOption_name_fix t).2]
  simp only [parseSshString_enc d r hdl hdfix]
  simp only [criticalOptionFromBytes_roundtrip t]

theorem encCriticalOption_ne_nil (x : SshCriticalOptionType × Bytes) :
    encCriticalOption x ≠ [] := by
  obtain ⟨t, d⟩ := x
  unfold encCriticalOption
  intro hcontra
  have := congrArg List.length hcontra
  simp [encSshString, writeU32] at this

theorem parseCriticalOptionList_enc (xs : List (SshCriticalOptionType × Bytes))
    (r : Bytes) (hplen : (xs.flatMap encCriticalOption).length < 2 ^ 32)
    (hels : ∀ x ∈ xs, strFix x.2) :
    parseCriticalOptionList (encCriticalOptionList xs ++ r) = .ok xs r := by
  unfold parseCriticalOptionList encCriticalOptionList
  simp only [parseByteArray_enc _ r hplen]
  simp only [elemsLoop_enc parseCriticalOption encCriticalOption xs _ le_rfl
    (fun x hx r2 => parseCriticalOption_enc x r2 (hels x hx))
    (fun x _ => encCriticalOption_ne_nil x)]

theorem extension_name_fix (t : SshExtensionType) :
    (extensionBytes t).length < 2 ^ 32 ∧
      lossyAux (extensionBytes t) = extensionBytes t := by
  cases t <;> exact ⟨by decide, by decide⟩

theorem extensionFromBytes_roundtrip (t : SshExtensionType) :
    extensionFromBytes (extensionBytes t) = .ok t := by
  cases t <;> rfl

theorem parseExtension_enc (x : SshExtensionType × Bytes) (r : Bytes)
    (h : strFix x.2) :
    parseExtension (encExtension x ++ r) = .ok x r := by
  obtain ⟨t, d⟩ := x
  obtain ⟨hdl, hdfix, _⟩ := h
  unfold encExtension parseExtension
  rw [List.append_assoc]
  simp only [parseSshString_enc (extensionBytes t) _
    (extension_name_fix t).1 (extension_name_fix t).2]
  simp only [parseSshString_enc d r hdl hdfix]
  simp only [extensionFromBytes_roundtrip t]

theorem encExtension_ne_nil (x : SshExtensionType × Bytes) :
    encExtension x ≠ [] := by
  obtain ⟨t, d⟩ := x
  unfold encExtension
  intro hcontra
  have := congrArg List.length hcontra
  simp [encSshString, writeU32] at this

theorem parseExtensionList_enc (xs : List (SshExtensionType × Bytes))
    (r : Bytes) (hplen : (xs.flatMap encExtension).length < 2 ^ 32)
    (hels : ∀ x ∈ xs, strFix x.2) :
    parseExtensionList (encExtensionList xs ++ r) = .ok xs r := by
  unfold parseExtensionList encExtensionList
  simp only [parseByteArray_enc _ r hplen]
  simp only [elemsLoop_enc parseExtension encExtension xs _ le_rfl
    (fun x hx r2 => parseExtension_enc x r2 (hels x hx))
    (fun x _ => encExtension_ne_nil x)]

theorem parseInnerPublicKey_enc (rsaOk : Nat → Nat → Bool) (e n : Nat)
    (he : (toBytesBE e).length + 1 < 2 ^ 32)
    (hn : (toBytesBE n).length + 1 < 2 ^ 32) (hrsa : rsaOk n e = true) :
    parseInnerPublicKey rsaOk (encInnerPublicKey e n) = .ok (e, n) [] := by
  unfold encInnerPublicKey parseInnerPublicKey
  rw [List.append_assoc]
  simp only [parseSshString_enc sshRsaBytes _ (by decide) (by decide)]
  rw [show encMpint (toBytesBE n) = encMpint (toBytesBE n) ++ ([] : Bytes)
    from (List.append_nil _).symm]
  simp only [parseMpint_enc e _ he]
  simp only [parseMpint_enc n [] hn]
  simp [fromBytesBE_mpintRoundValue, hrsa]

/-! Base64 and envelope lemmas. -/

theorem b64Inv_b64Char : ∀ s < 64, b64Inv (b64Char s) = some s := by
  decide

theorem b64Char_gt32 (s : Nat) : 32 < b64Char s := by
  unfold b64Char
  repeat' split
  all_goals omega

theorem b64Char_ne61 (s : Nat) : b64Char s ≠ 61 := by
  unfold b64Char
  repeat' split
  all_goals omega

theorem b64encode_no32 (bs : Bytes) : 32 ∉ b64encode bs := by
  suffices h : ∀ n bs, List.length bs ≤ n → 32 ∉ b64encode bs from
    h bs.length bs le_rfl
  intro n
  induction n with
  | zero =>
    intro bs h
    have : bs = [] := List.length_eq_zero.mp (by omega)
    subst this
    simp [b64encode]
  | succ n ih =>
    intro bs h
    match bs with
    | [] => simp [b64encode]
    | [b1] =>
      intro hmem
      simp [b64encode] at hmem
      rcases hmem with h1 | h1
      · have := b64Char_gt32 (b1 / 4)
        omega
      · have := b64Char_gt32 (b1 % 4 * 16)
        omega
    | [b1, b2] =>
      intro hmem
      simp [b64encode] at hmem
      rcases hmem with h1 | h1 | h1
      · have := b64Char_gt32 (b1 / 4)
        omega
      · have := b64Char_gt32 (b1 % 4 * 16 + b2 / 16)
        omega
      · have := b64Char_gt32 (b2 % 16 * 4)
        omega
    | b1 :: b2 :: b3 :: rest =>
      intro hmem
      simp only [b64encode, List.mem_cons] at hmem
      rcases hmem with h1 | h1 | h1 | h1 | h1
      · have := b64Char_gt32 (b1 / 4)
        omega
      · have := b64Char_gt32 (b1 % 4 * 16 + b2 / 16)
        omega
      · have := b64Char_gt32 (b2 % 16 * 4 + b3 / 64)
        omega
      · have := b64Char_gt32 (b3 % 64)
        omega
      · exact ih rest (by simp at h; omega) h1

theorem b64decode_encode (bs : Bytes) (h : bs.all (· < 256) = true) :
    b64decode (b64encode bs) = some bs := by
  suffices hs : ∀ n bs, List.length bs ≤ n → bs.all (· < 256) = true →
      b64decode (b64encode bs) = some bs from hs bs.length bs le_rfl h
  intro n
  induction n with
  | zero =>
    intro bs hl _
    have : bs = [] := List.length_eq_zero.mp (by omega)
    subst this
    simp [b64encode, b64decode]
  | succ n ih =>
    intro bs hl hall
    match bs with
    | [] => simp [b64encode, b64decode]
    | [b1] =>
      have h1 : b1 < 256 := by simp at hall; omega
      simp only [b64encode, b64decode,
        b64Inv_b64Char (b1 / 4) (by omega),
        b64Inv_b64Char (b1 % 4 * 16) (by omega)]
      have hz : b1 % 4 * 16 % 16 = 0 := by omega
      simp [hz]
      omega
    | [b1, b2] =>
      have h1 : b1 < 256 ∧ b2 < 256 := by simp at hall; omega
      simp only [b64encode, b64decode,
        b64Inv_b64Char (b1 / 4) (by omega),
        b64Inv_b64Char (b1 % 4 * 16 + b2 / 16) (by omega),
        b64Inv_b64Char (b2 % 16 * 4) (by omega)]
      rw [if_neg (b64Char_ne61 _)]
      have hz : b2 % 16 * 4 % 4 = 0 := by omega
      simp [hz]
      constructor <;> omega
    | b1 :: b2 :: b3 :: rest =>
      have h1 : b1 < 256 ∧ b2 < 256 ∧ b3 < 256 ∧
          rest.all (· < 256) = true := by
        simp at hall ⊢
        tauto
      obtain ⟨hb1, hb2, hb3, hrest⟩ := h1
      have hlen : rest.length ≤ n := by simp at hl; omega
      simp only [b64encode, b64decode,
        b64Inv_b64Char (b1 / 4) (by omega),
        b64Inv_b64Char (b1 % 4 * 16 + b2 / 16) (by omega),
        b64Inv_b64Char (b2 % 16 * 4 + b3 / 64) (by omega),
        b64Inv_b64Char (b3 % 64) (by omega)]
      rw [if_neg (b64Char_ne61 _), if_neg (b64Char_ne61 _)]
      simp only [ih rest hlen hrest]
      simp only [Option.some.injEq, List.cons.injEq]
      refine ⟨by omega, by omega, by omega, trivial⟩

theorem readToken_sep (t r : Bytes) (h : 32 ∉ t) :
    readToken (t ++ 32 :: r) = (t, r) := by
  induction t with
  | nil => simp [readToken]
  | cons b t ih =>
    simp only [List.mem_cons, not_or] at h
    have hb : b ≠ 32 := fun hc => h.1 hc.symm
    simp only [List.cons_append, readToken, hb, if_false, List.append_eq,
      ih h.2]

theorem readToken_noSep (t : Bytes) (h : 32 ∉ t) : readToken t = (t, []) := by
  induction t with
  | nil => simp [readToken]
  | cons b t ih =>
    simp only [List.mem_cons, not_or] at h
    have hb : b ≠ 32 := fun hc => h.1 hc.symm
    simp only [readToken, hb, if_false, ih h.2]

/-! Every byte of an encoded body is an actual byte (below 256). -/

theorem writeU32_all (x : Nat) : (writeU32 x).all (· < 256) = true := by
  simp [writeU32]
  omega

theorem writeU64_all (x : Nat) : (writeU64 x).all (· < 256) = true := by
  simp [writeU64]
  omega

theorem encByteArray_all (bs : Bytes) (h : bs.all (· < 256) = true) :
    (encByteArray bs).all (· < 256) = true := by
  simp only [encByteArray, List.all_append, writeU32_all, h, Bool.and_self]

theorem encSshString_all (s : Bytes) (h : s.all (· < 256) = true) :
    (encSshString s).all (· < 256) = true := by
  simp only [encSshString, List.all_append, writeU32_all, h, Bool.and_self]

theorem encMpint_all (bs : Bytes) (h : bs.all (· < 256) = true) :
    (encMpint bs).all (· < 256) = true := by
  unfold encMpint
  split
  · exact encByteArray_all (0 :: bs) (by simp [h])
  · exact encByteArray_all bs h

theorem toBytesBE_all (x : Nat) : (toBytesBE x).all (· < 256) = true :=
  (toBytesBE_cons x).choose_spec.choose_spec.2.2

theorem encCertType_all (t : SshCertType) :
    (encCertType t).all (· < 256) = true := by
  cases t <;> exact writeU32_all _

theorem flatMap_all {α : Type} (enc : α → Bytes) (xs : List α)
    (h : ∀ x ∈ xs, (enc x).all (· < 256) = true) :
    (xs.flatMap enc).all (· < 256) = true := by
  induction xs with
  | nil => simp
  | cons x xs ih =>
    simp only [List.flatMap_cons, List.all_append]
    rw [h x (by simp), ih (fun y hy => h y (List.mem_cons_of_mem _ hy))]
    rfl

theorem encInnerPublicKey_all (e n : Nat) :
    (encInnerPublicKey e n).all (· < 256) = true := by
  simp only [encInnerPublicKey, List.all_append]
  rw [encSshString_all sshRsaBytes (by decide),
    encMpint_all _ (toBytesBE_all e), encMpint_all _ (toBytesBE_all n)]
  rfl

theorem criticalOption_name_all (t : SshCriticalOptionType) :
    (criticalOptionBytes t).all (· < 256) = true := by
  cases t <;> decide

theorem extension_name_all (t : SshExtensionType) :
    (extensionBytes t).all (· < 256) = true := by
  cases t <;> decide

theorem bodyEncode_all (c : SshCertificate)
    (hnonce : c.nonce.all (· < 256) = true)
    (hkid : c.key_id.all (· < 256) = true)
    (hprin : ∀ p ∈ c.valid_principals, p.all (· < 256) = true)
    (hopt : ∀ x ∈ c.critical_options, x.2.all (· < 256) = true)
    (hext : ∀ x ∈ c.extensions, x.2.all (· < 256) = true)
    (hsig : c.signature.all (· < 256) = true) :
    (bodyEncode c).all (· < 256) = true := by
  simp only [bodyEncode, List.all_append]
  rw [encSshString_all headerBytes (by decide), encByteArray_all _ hnonce,
    encMpint_all _ (toBytesBE_all c.e), encMpint_all _ (toBytesBE_all c.n),
    writeU64_all, encCertType_all, encSshString_all _ hkid,
    writeU64_all, writeU64_all,
    encByteArray_all ([] : Bytes) (by decide),
    encByteArray_all _ (encInnerPublicKey_all c.sig_e c.sig_n),
    encByteArray_all _ hsig]
  rw [show encStringList c.valid_principals
      = encByteArray (c.valid_principals.flatMap encSshString) from rfl]
  rw [encByteArray_all _ (flatMap_all _ _
    (fun p hp => encSshString_all p (hprin p hp)))]
  rw [show encCriticalOptionList c.critical_options
      = encByteArray (c.critical_options.flatMap encCriticalOption) from rfl]
  rw [encByteArray_all _ (flatMap_all _ _ (fun x hx => by
    obtain ⟨t, d⟩ := x
    simp only [encCriticalOption, List.all_append]
    rw [encSshString_all _ (criticalOption_name_all t),
      encSshString_all _ (hopt (t, d) hx)]
    rfl))]
  rw [show encExtensionList c.extensions
      = encByteArray (c.extensions.flatMap encExtension) from rfl]
  rw [encByteArray_all _ (flatMap_all _ _ (fun x hx => by
    obtain ⟨t, d⟩ := x
    simp only [encExtension, List.all_append]
    rw [encSshString_all _ (extension_name_all t),
      encSshString_all _ (hext (t, d) hx)]
    rfl))]
  rfl

/-! Decoding an encoded certificate body recovers the certificate. -/

theorem pbind_ok {α β : Type} {p : Parser α} {f : α → Parser β} {bs : Bytes}
    {a : α} {r : Bytes} (h : p bs = .ok a r) : pbind p f bs = f a r := by
  simp [pbind, h]

theorem parseByteArray_enc_nil (bs : Bytes) (h : bs.length < 2 ^ 32) :
    parseByteArray (encByteArray bs) = .ok bs [] := by
  have := parseByteArray_enc bs [] h
  rwa [List.append_nil] at this

theorem decodeBody_enc (rsaOk : Nat → Nat → Bool) (c : SshCertificate)
    (h : certWf rsaOk c) :
    decodeBody rsaOk (bodyEncode c) = .ok { c with comment := [] } [] := by
  obtain ⟨kt, e, n, nonce, serial, ct, kid, prins, va, vb, opts, exts, se,
    sn, sig, comment⟩ := c
  cases kt
  obtain ⟨hn1, hn2, he, hnn, hser, hva, hvb, hkid, hprin, hprinlen, hopt,
    hoptlen, hext, hextlen, hse, hsn, hinner, hsigl, hsiga, hcu, hcsp,
    hrsa1, hrsa2⟩ := h
  unfold decodeBody bodyEncode
  simp only [List.append_assoc]
  rw [pbind_ok (parseSshString_enc headerBytes _ (by decide) (by decide))]
  rw [if_pos rfl]
  rw [pbind_ok (parseByteArray_enc nonce _ hn1)]
  rw [pbind_ok (parseMpint_enc e _ he)]
  rw [pbind_ok (parseMpint_enc n _ hnn)]
  simp only [fromBytesBE_mpintRoundValue]
  rw [if_pos hrsa1]
  rw [pbind_ok (readU64_enc serial _ hser)]
  rw [pbind_ok (parseCertType_enc ct _)]
  rw [pbind_ok (parseSshString_enc kid _ hkid.1 hkid.2.1)]
  rw [pbind_ok (parseStringList_enc prins _ hprinlen hprin)]
  rw [pbind_ok (readU64_enc va _ hva)]
  rw [pbind_ok (readU64_enc vb _ hvb)]
  rw [pbind_ok (parseCriticalOptionList_enc opts _ hoptlen hopt)]
  rw [pbind_ok (parseExtensionList_enc exts _ hextlen hext)]
  rw [pbind_ok (parseByteArray_enc [] _ (by decide))]
  rw [pbind_ok (parseByteArray_enc (encInnerPublicKey se sn) _ hinner)]
  simp only [parseInnerPublicKey_enc rsaOk se sn hse hsn hrsa2]
  rw [pbind_ok (parseByteArray_enc_nil sig hsigl)]

theorem utf8Valid_header : utf8Valid headerBytes = true := by decide

theorem certDecode_certEncode (rsaOk : Nat → Nat → Bool) (c : SshCertificate)
    (h : certWf rsaOk c) :
    certDecode rsaOk (certEncode c) = .ok c [] := by
  have h' := h
  obtain ⟨hn1, hn2, he, hnn, hser, hva, hvb, hkid, hprin, hprinlen, hopt,
    hoptlen, hext, hextlen, hse, hsn, hinner, hsigl, hsiga, hcu, hcsp,
    hrsa1, hrsa2⟩ := h'
  have hbody := decodeBody_enc rsaOk c h
  have hall : (bodyEncode c).all (· < 256) = true :=
    bodyEncode_all c hn2 hkid.2.2 (fun p hp => (hprin p hp).2.2)
      (fun x hx => (hopt x hx).2.2) (fun x hx => (hext x hx).2.2) hsiga
  unfold certEncode certDecode
  rw [readToken_sep headerBytes _ (by decide)]
  rw [if_pos utf8Valid_header]
  rw [if_pos rfl]
  rw [readToken_sep _ _ (b64encode_no32 (bodyEncode c))]
  simp only []
  rw [b64decode_encode _ hall]
  simp only []
  rw [hbody]
  simp only []
  rw [readToken_noSep _ hcsp]
  simp only []
  rw [if_pos hcu]

/-- Claim C1, counterexample: a syntactically valid certificate input whose
`reserved` field holds the nonempty byte string `[1]` is accepted by decode,
but re-encoding the decoded value does not reproduce the input: the decoder
discards the reserved payload and the encoder always writes an empty one, so
`encode(decode(C)) != C`. -/
theorem certificate_idempotence_cex :
    certDecode rsaOkAll badReservedInput = .ok cexCert [] ∧
    certEncode cexCert ≠ badReservedInput := by
  constructor
  · decide
  · decide

/-- Claim C1, amended: idempotence holds on canonical inputs. For every
well-formed certificate value `c` (fields with the invariants its Rust types
guarantee, comment without a space, RSA keys accepted by the external
validation), decoding the encoding of `c` succeeds, returns `c` with nothing
left over, and re-encoding therefore reproduces the input byte-identically,
comment included. Inputs with a nonempty `reserved` field (and other
non-canonical inputs such as over-padded mpints) are accepted by decode but
do not re-encode identically. -/
theorem certificate_idempotent_on_canonical (rsaOk : Nat → Nat → Bool)
    (c : SshCertificate) (h : certWf rsaOk c) :
    ∃ w, certDecode rsaOk (certEncode c) = .ok w [] ∧
      certEncode w = certEncode c :=
  ⟨c, certDecode_certEncode rsaOk c h, rfl⟩

/-- Claim C1, witness at a small concrete certificate. -/
theorem certificate_idempotent_on_canonical_witness :
    ∃ w, certDecode rsaOkAll (certEncode sampleCert) = .ok w [] ∧
      certEncode w = certEncode sampleCert :=
  certificate_idempotent_on_canonical rsaOkAll sampleCert (by decide)

/-! The reserved field of every encoded body is empty. -/

theorem baStep_enc (bs r : Bytes) (h : bs.length < 2 ^ 32) :
    baStep (encByteArray bs ++ r) = some r := by
  simp [baStep, parseByteArray_enc bs r h]

theorem baStep_encMpint (bs r : Bytes) (h : bs.length + 1 < 2 ^ 32) :
    baStep (encMpint bs ++ r) = some r := by
  unfold encMpint
  split
  · exact baStep_enc (0 :: bs) r (by simpa using h)
  · exact baStep_enc bs r (by omega)

theorem dropN_serial_certtype (a b : Nat) (r : Bytes) :
    dropN 12 (writeU64 a ++ (writeU32 b ++ r)) = some r := by
  have hlen : (writeU64 a ++ writeU32 b).length = 12 := by
    simp [writeU64, writeU32]
  unfold dropN
  rw [← List.append_assoc]
  rw [if_pos (by rw [List.length_append, hlen]; omega)]
  rw [List.drop_left' hlen]

theorem dropN_two_times (a b : Nat) (r : Bytes) :
    dropN 16 (writeU64 a ++ (writeU64 b ++ r)) = some r := by
  have hlen : (writeU64 a ++ writeU64 b).length = 16 := by
    simp [writeU64]
  unfold dropN
  rw [← List.append_assoc]
  rw [if_pos (by rw [List.length_append, hlen]; omega)]
  rw [List.drop_left' hlen]

/-- Claim C10: in every encoded certificate body the thirteenth wire frame —
the `reserved` field, sitting after the two timestamps, the critical options
and the extensions — is a `ByteArray` of length 0 with empty payload. The
`SshCertificate` record holds no reserved data at all (decode reads and
discards that field), so this holds for every certificate the encoder can be
given, whatever reserved content appeared in the input it was decoded
from. -/
theorem encoded_reserved_always_empty (c : SshCertificate)
    (h : certWfSizes c) :
    extractReserved (bodyEncode c) = some [] := by
  obtain ⟨hn1, he, hnn, hkid, hprinlen, hoptlen, hextlen, hinner, hsigl⟩ := h
  unfold bodyEncode extractReserved
  simp only [List.append_assoc]
  rw [show encSshString headerBytes = encByteArray headerBytes from rfl]
  rw [baStep_enc headerBytes _ (by decide)]
  simp only []
  rw [baStep_enc c.nonce _ hn1]
  simp only []
  rw [baStep_encMpint _ _ he]
  simp only []
  rw [baStep_encMpint _ _ hnn]
  simp only []
  rw [show encCertType c.cert_type = writeU32 c.cert_type.toU32 from rfl]
  rw [dropN_serial_certtype]
  simp only []
  rw [show encSshString c.key_id = encByteArray c.key_id from rfl]
  rw [baStep_enc c.key_id _ hkid]
  simp only []
  rw [show encStringList c.valid_principals
    = encByteArray (c.valid_principals.flatMap encSshString) from rfl]
  rw [baStep_enc _ _ hprinlen]
  simp only []
  rw [dropN_two_times]
  simp only []
  rw [show encCriticalOptionList c.critical_options
    = encByteArray (c.critical_options.flatMap encCriticalOption) from rfl]
  rw [baStep_enc _ _ hoptlen]
  simp only []
  rw [show encExtensionList c.extensions
    = encByteArray (c.extensions.flatMap encExtension) from rfl]
  rw [baStep_enc _ _ hextlen]
  simp only []
  rw [parseByteArray_enc [] _ (by decide)]

/-- Claim C10, witness at a small concrete certificate. -/
theorem encoded_reserved_always_empty_witness :
    extractReserved (bodyEncode sampleCert) = some [] :=
  encoded_reserved_always_empty sampleCert (by decide)

end PickySsh
